import Mathlib

/-!
Verification of the puppetstuff repository: a shallow embedding of the
Puppetfile parser (src/puppetfile.rs), the Forge API TTL cache
(src/forge.rs) and the reconciliation loop of the `ForgeBranches` view
(src/main.rs), together with proofs about the spec's claims.

Strings are modelled as `List Char`; Rust `u64` values as `Nat` with
explicit wrap-around where the code can overflow; Rust panics as `none`
in an `Option`-valued result.
-/

/-- Convert a string literal to the character-list representation used
throughout this development. -/
def chars (s : String) : List Char := s.data

/-- The double-quote character. -/
def dquote : Char := Char.ofNat 34

/-- The single-quote character. -/
def squote : Char := Char.ofNat 39

/-- Whitespace test used for Rust `str::trim` and the regexes' white-space
classes (the manifests at hand only ever contain ASCII whitespace). -/
def isWs (c : Char) : Bool := c.isWhitespace

/-- A quote character, single or double: the character class of the regexes
in src/puppetfile.rs accepts either and does not require them to match. -/
def isQuote (c : Char) : Bool := c = squote || c = dquote

example : chars "ab" = ['a', 'b'] := rfl

/-! ## Semantic versions (model of the `semver` crate as used by the code) -/

/-- A pre-release identifier: per the semver grammar either numeric (all
digits, no leading zero, compared numerically) or alphanumeric (compared
lexically by byte, which for these ASCII identifiers is by code point). -/
inductive PreId where
  | num (n : Nat)
  | str (s : List Char)
deriving DecidableEq, Repr

/-- A parsed semantic version as `semver::Version`: numeric major, minor
and patch, pre-release identifiers and build metadata identifiers. -/
structure SemVer where
  major : Nat
  minor : Nat
  patch : Nat
  pre : List PreId
  build : List (List Char)
deriving DecidableEq, Repr

/-- Characters allowed in pre-release/build identifiers: ASCII
alphanumerics and hyphen. -/
def identChar (c : Char) : Bool := c.isAlphanum || c = '-'

/-- Value of a digit string, most significant first. -/
def digitsToNat (cs : List Char) : Nat :=
  cs.foldl (fun acc c => 10 * acc + (c.toNat - 48)) 0

/-- Parse a numeric version component: nonempty, all digits, no leading
zero (unless it is exactly `0`), and fitting in a `u64` (the crate rejects
larger components). -/
def parseNumeric (cs : List Char) : Option Nat :=
  match cs with
  | [] => none
  | c :: rest =>
    if (c :: rest).all Char.isDigit then
      if c = '0' && rest ≠ [] then none
      else if digitsToNat (c :: rest) < 18446744073709551616 then
        some (digitsToNat (c :: rest))
      else none
    else none

/-- Split a character list at every dot, as the crate splits pre-release
and build strings into identifiers. -/
def splitDotsAux : List Char → List Char → List (List Char)
  | [], acc => [acc.reverse]
  | c :: rest, acc =>
    if c = '.' then acc.reverse :: splitDotsAux rest []
    else splitDotsAux rest (c :: acc)

/-- Split on dots (an empty input yields one empty identifier, which the
identifier parsers below reject). -/
def splitDots (cs : List Char) : List (List Char) := splitDotsAux cs []

/-- Parse one pre-release identifier: nonempty, alphanumeric/hyphen; an
all-digit identifier must have no leading zero and is numeric. -/
def parsePreId (cs : List Char) : Option PreId :=
  match cs with
  | [] => none
  | c :: rest =>
    if (c :: rest).all Char.isDigit then
      if c = '0' && rest ≠ [] then none
      else some (.num (digitsToNat (c :: rest)))
    else if (c :: rest).all identChar then some (.str (c :: rest))
    else none

/-- Parse one build-metadata identifier: nonempty, alphanumeric/hyphen
(leading zeros are allowed here). -/
def parseBuildId (cs : List Char) : Option (List Char) :=
  match cs with
  | [] => none
  | c :: rest =>
    if (c :: rest).all identChar then some (c :: rest) else none

/-- Leading digit run and the remainder. -/
def spanDigits (cs : List Char) : List Char × List Char :=
  (cs.takeWhile Char.isDigit, cs.dropWhile Char.isDigit)

/-- Model of `semver::Version::parse`: `major.minor.patch` with optional
`-pre` and `+build` parts, rejecting anything else (`none` = parse error). -/
def parseSemVer (cs : List Char) : Option SemVer :=
  let s1 := spanDigits cs
  match parseNumeric s1.1 with
  | none => none
  | some major =>
    match s1.2 with
    | '.' :: r2 =>
      let s2 := spanDigits r2
      match parseNumeric s2.1 with
      | none => none
      | some minor =>
        match s2.2 with
        | '.' :: r4 =>
          let s3 := spanDigits r4
          match parseNumeric s3.1 with
          | none => none
          | some patch =>
            match s3.2 with
            | [] => some ⟨major, minor, patch, [], []⟩
            | '-' :: r6 =>
              match ((splitDots (r6.takeWhile (· ≠ '+'))).mapM parsePreId) with
              | none => none
              | some pre =>
                match r6.dropWhile (· ≠ '+') with
                | [] => some ⟨major, minor, patch, pre, []⟩
                | _ :: r7 =>
                  match ((splitDots r7).mapM parseBuildId) with
                  | none => none
                  | some build => some ⟨major, minor, patch, pre, build⟩
            | '+' :: r6 =>
              match ((splitDots r6).mapM parseBuildId) with
              | none => none
              | some build => some ⟨major, minor, patch, [], build⟩
            | _ => none
        | _ => none
    | _ => none

/-- Digits of a natural number, as characters. -/
def natToChars (n : Nat) : List Char := (Nat.repr n).data

/-- Render one pre-release identifier. -/
def preIdToChars : PreId → List Char
  | .num n => natToChars n
  | .str s => s

/-- Model of the `Display` implementation of `semver::Version`
(`version.to_string()` in src/forge.rs). -/
def svToString (v : SemVer) : List Char :=
  natToChars v.major ++ '.' :: natToChars v.minor ++ '.' :: natToChars v.patch
    ++ (if v.pre.isEmpty then []
        else '-' :: List.intercalate ['.'] (v.pre.map preIdToChars))
    ++ (if v.build.isEmpty then []
        else '+' :: List.intercalate ['.'] v.build)

example : parseSemVer (chars "1.2.3") = some ⟨1, 2, 3, [], []⟩ := by decide
example : parseSemVer (chars "not-a-version") = none := by decide
example : parseSemVer (chars "0.0.0-alpha") = some ⟨0, 0, 0, [.str (chars "alpha")], []⟩ := by decide
example : parseSemVer (chars "8.5.0") = some ⟨8, 5, 0, [], []⟩ := by decide
example : parseSemVer (chars "01.0.0") = none := by decide
example : parseSemVer (chars "1.0.0-rc.1+build.5") = some ⟨1, 0, 0, [.str (chars "rc"), .num 1], [chars "build", chars "5"]⟩ := by decide
example : svToString ⟨1, 2, 3, [.str (chars "rc"), .num 1], [chars "b1"]⟩ = chars "1.2.3-rc.1+b1" := by decide

/-! ## Semver ordering (model of `impl Ord for semver::Version`) -/

/-- Comparison of natural numbers, as Rust compares `u64`. -/
def natCmp (a b : Nat) : Ordering :=
  if a < b then .lt else if a = b then .eq else .gt

/-- Byte-wise comparison of ASCII strings (UTF-8 byte order equals code
point order, so comparing `Char.toNat` matches Rust's `str` ordering). -/
def chCmp (a b : Char) : Ordering := natCmp a.toNat b.toNat

/-- Lexicographic comparison of lists from an element comparison, the way
the crate walks identifier lists: a strict prefix is smaller. -/
def lexCmp (c : α → α → Ordering) : List α → List α → Ordering
  | [], [] => .eq
  | [], _ :: _ => .lt
  | _ :: _, [] => .gt
  | x :: xs, y :: ys => (c x y).then (lexCmp c xs ys)

/-- String comparison (Rust `Ord` on `&str`). -/
def strCmp (a b : List Char) : Ordering := lexCmp chCmp a b

/-- Compare two pre-release identifiers: numeric before alphanumeric,
numeric numerically, alphanumeric lexically. -/
def preIdCmp : PreId → PreId → Ordering
  | .num a, .num b => natCmp a b
  | .num _, .str _ => .lt
  | .str _, .num _ => .gt
  | .str a, .str b => strCmp a b

/-- Compare pre-release lists: the absence of a pre-release (empty list)
has *higher* precedence than any pre-release; otherwise identifier-wise
lexicographic comparison. -/
def preCmp (a b : List PreId) : Ordering :=
  match a, b with
  | [], [] => .eq
  | [], _ :: _ => .gt
  | _ :: _, [] => .lt
  | _, _ => lexCmp preIdCmp a b

/-- Compare two build-metadata identifiers, as the crate does: all-digit
identifiers numerically (leading zeros broken first by trimmed length and
digits, then by untrimmed length), digits before non-digits, otherwise
lexically. -/
def buildIdCmp (a b : List Char) : Ordering :=
  if a.all Char.isDigit then
    if b.all Char.isDigit then
      (natCmp (a.dropWhile (· = '0')).length (b.dropWhile (· = '0')).length).then
        ((strCmp (a.dropWhile (· = '0')) (b.dropWhile (· = '0'))).then
          (natCmp a.length b.length))
    else .lt
  else if b.all Char.isDigit then .gt
  else strCmp a b

/-- Compare build-metadata lists: absent build metadata sorts first;
otherwise identifier-wise lexicographic comparison. -/
def buildCmp (a b : List (List Char)) : Ordering := lexCmp buildIdCmp a b

/-- Model of `Ord::cmp` on `semver::Version`: major, then minor, then
patch, then pre-release, then build metadata. -/
def sverCmp (a b : SemVer) : Ordering :=
  (natCmp a.major b.major).then
    ((natCmp a.minor b.minor).then
      ((natCmp a.patch b.patch).then
        ((preCmp a.pre b.pre).then (buildCmp a.build b.build))))

/-- Rust `a < b` on versions. -/
def sverLt (a b : SemVer) : Bool := sverCmp a b = .lt

/-- Rust `a <= b` on versions. -/
def sverLe (a b : SemVer) : Bool := sverCmp a b ≠ .gt

/-- Model of `std::cmp::max(version, current)` as used for
`max_in_use_version` in src/main.rs (first argument is the newly seen
version, second the accumulator; ties keep the accumulator). -/
def svMax (version current : SemVer) : SemVer :=
  if sverLt current version then version else current

/-- The zero version `Version::new(0, 0, 0)`. -/
def zeroVer : SemVer := ⟨0, 0, 0, [], []⟩

example : sverLt ⟨0, 0, 0, [.str (chars "alpha")], []⟩ zeroVer = true := by decide
example : sverLt ⟨8, 4, 0, [], []⟩ ⟨8, 5, 0, [], []⟩ = true := by decide
example : sverLt ⟨1, 0, 0, [.num 2], []⟩ ⟨1, 0, 0, [.num 10], []⟩ = true := by decide
example : sverLt ⟨1, 0, 0, [.num 10], []⟩ ⟨1, 0, 0, [.str (chars "a")], []⟩ = true := by decide
example : svMax ⟨1, 2, 3, [], []⟩ zeroVer = ⟨1, 2, 3, [], []⟩ := by decide

/-! ## Lawfulness of the comparison functions -/

/-- Well-behavedness of a comparison: swapping arguments swaps the result,
`eq` reflects equality, and strict comparison is transitive. -/
structure IsLawCmp (cmp : α → α → Ordering) : Prop where
  symm : ∀ a b, cmp b a = (cmp a b).swap
  eq_iff : ∀ {a b}, cmp a b = .eq → a = b
  lt_trans : ∀ {a b c}, cmp a b = .lt → cmp b c = .lt → cmp a c = .lt

theorem then_swap (o p : Ordering) : (o.then p).swap = o.swap.then p.swap := by
  cases o <;> rfl

theorem then_eq {o p : Ordering} : o.then p = .eq ↔ o = .eq ∧ p = .eq := by
  cases o <;> simp [Ordering.then]

theorem then_lt {o p : Ordering} :
    o.then p = .lt ↔ o = .lt ∨ (o = .eq ∧ p = .lt) := by
  cases o <;> simp [Ordering.then]

theorem IsLawCmp.refl {cmp : α → α → Ordering} (h : IsLawCmp cmp) (a : α) :
    cmp a a = .eq := by
  have hs := h.symm a a
  cases hc : cmp a a
  · rw [hc] at hs; simp [Ordering.swap] at hs
  · rfl
  · rw [hc] at hs; simp [Ordering.swap] at hs

theorem IsLawCmp.not_gt_of_not_lt {cmp : α → α → Ordering} (h : IsLawCmp cmp)
    {a b : α} (hab : cmp a b ≠ .lt) : cmp b a ≠ .gt := by
  intro hba
  rw [h.symm a b] at hba
  cases hc : cmp a b
  · exact hab hc
  · rw [hc] at hba; simp [Ordering.swap] at hba
  · rw [hc] at hba; simp [Ordering.swap] at hba

theorem IsLawCmp.le_trans {cmp : α → α → Ordering} (h : IsLawCmp cmp)
    {a b c : α} (hab : cmp a b ≠ .gt) (hbc : cmp b c ≠ .gt) : cmp a c ≠ .gt := by
  cases h1 : cmp a b with
  | gt => exact absurd h1 hab
  | eq => rw [h.eq_iff h1]; exact hbc
  | lt =>
    cases h2 : cmp b c with
    | gt => exact absurd h2 hbc
    | eq => rw [← h.eq_iff h2]; simp [h1]
    | lt => simp [h.lt_trans h1 h2]

theorem IsLawCmp.lt_le_trans {cmp : α → α → Ordering} (h : IsLawCmp cmp)
    {a b c : α} (hab : cmp a b = .lt) (hbc : cmp b c ≠ .gt) : cmp a c = .lt := by
  cases h2 : cmp b c with
  | gt => exact absurd h2 hbc
  | eq => rw [← h.eq_iff h2]; exact hab
  | lt => exact h.lt_trans hab h2

theorem natCmp_lt {a b : Nat} : natCmp a b = .lt ↔ a < b := by
  simp only [natCmp]
  by_cases h1 : a < b
  · simp [h1]
  · by_cases h2 : a = b <;> simp [h1, h2]

theorem natCmp_eq {a b : Nat} : natCmp a b = .eq ↔ a = b := by
  simp only [natCmp]
  by_cases h1 : a < b
  · simp [h1]; omega
  · by_cases h2 : a = b <;> simp [h1, h2]

theorem natCmp_gt {a b : Nat} : natCmp a b = .gt ↔ b < a := by
  simp only [natCmp]
  by_cases h1 : a < b
  · simp [h1]; omega
  · by_cases h2 : a = b
    · simp [h1, h2]
    · simp [h1, h2]; omega

theorem natCmp_law : IsLawCmp natCmp := by
  refine ⟨?_, ?_, ?_⟩
  · intro a b
    rcases Nat.lt_trichotomy a b with h | h | h
    · rw [natCmp_lt.mpr h, show natCmp b a = .gt from natCmp_gt.mpr h]; rfl
    · rw [natCmp_eq.mpr h, show natCmp b a = .eq from natCmp_eq.mpr h.symm]; rfl
    · rw [natCmp_gt.mpr h, show natCmp b a = .lt from natCmp_lt.mpr h]; rfl
  · intro a b h; exact natCmp_eq.mp h
  · intro a b c h1 h2
    exact natCmp_lt.mpr (Nat.lt_trans (natCmp_lt.mp h1) (natCmp_lt.mp h2))

theorem chCmp_law : IsLawCmp chCmp := by
  refine ⟨?_, ?_, ?_⟩
  · intro a b; exact natCmp_law.symm _ _
  · intro a b h
    exact Char.eq_of_val_eq (UInt32.eq_of_val_eq (Fin.ext (natCmp_law.eq_iff h)))
  · intro a b c h1 h2; exact natCmp_law.lt_trans h1 h2

theorem lexCmp_law {c : α → α → Ordering} (hc : IsLawCmp c) :
    IsLawCmp (lexCmp c) := by
  refine ⟨?_, ?_, ?_⟩
  · intro a b
    induction a generalizing b with
    | nil => cases b <;> rfl
    | cons x xs ih =>
      cases b with
      | nil => rfl
      | cons y ys =>
        show (c y x).then (lexCmp c ys xs) = ((c x y).then (lexCmp c xs ys)).swap
        rw [then_swap, hc.symm x y, ih ys]
  · intro a b h
    induction a generalizing b with
    | nil => cases b with
      | nil => rfl
      | cons y ys => simp [lexCmp] at h
    | cons x xs ih =>
      cases b with
      | nil => simp [lexCmp] at h
      | cons y ys =>
        have h' := then_eq.mp h
        rw [hc.eq_iff h'.1, ih h'.2]
  · intro a b c h1 h2
    induction a generalizing b c with
    | nil =>
      cases b with
      | nil => simpa using h2
      | cons y ys =>
        cases c with
        | nil => simp [lexCmp] at h2
        | cons z zs => rfl
    | cons x xs ih =>
      cases b with
      | nil => simp [lexCmp] at h1
      | cons y ys =>
        cases c with
        | nil => simp [lexCmp] at h2
        | cons z zs =>
          show (c x z).then (lexCmp c xs zs) = .lt
          rcases then_lt.mp h1 with hxy | ⟨hxy, hrest1⟩ <;>
            rcases then_lt.mp h2 with hyz | ⟨hyz, hrest2⟩
          · exact then_lt.mpr (Or.inl (hc.lt_trans hxy hyz))
          · rw [← hc.eq_iff hyz]; exact then_lt.mpr (Or.inl hxy)
          · rw [hc.eq_iff hxy]; exact then_lt.mpr (Or.inl hyz)
          · rw [hc.eq_iff hxy]
            exact then_lt.mpr (Or.inr ⟨hyz, ih hrest1 hrest2⟩)

theorem strCmp_law : IsLawCmp strCmp := lexCmp_law chCmp_law

/-- Lexicographic pairing of two comparisons. -/
def prodCmp (ca : α → α → Ordering) (cb : β → β → Ordering) (x y : α × β) :
    Ordering :=
  (ca x.1 y.1).then (cb x.2 y.2)

theorem prodCmp_law {ca : α → α → Ordering} {cb : β → β → Ordering}
    (ha : IsLawCmp ca) (hb : IsLawCmp cb) : IsLawCmp (prodCmp ca cb) := by
  refine ⟨?_, ?_, ?_⟩
  · intro x y
    show (ca y.1 x.1).then (cb y.2 x.2) = ((ca x.1 y.1).then (cb x.2 y.2)).swap
    rw [then_swap, ha.symm, hb.symm]
  · intro x y h
    have h' := then_eq.mp h
    exact Prod.ext (ha.eq_iff h'.1) (hb.eq_iff h'.2)
  · intro x y z h1 h2
    show (ca x.1 z.1).then (cb x.2 z.2) = .lt
    rcases then_lt.mp h1 with hxy | ⟨hxy, hr1⟩ <;>
      rcases then_lt.mp h2 with hyz | ⟨hyz, hr2⟩
    · exact then_lt.mpr (Or.inl (ha.lt_trans hxy hyz))
    · rw [← ha.eq_iff hyz]; exact then_lt.mpr (Or.inl hxy)
    · rw [ha.eq_iff hxy]; exact then_lt.mpr (Or.inl hyz)
    · rw [ha.eq_iff hxy]
      exact then_lt.mpr (Or.inr ⟨hyz, hb.lt_trans hr1 hr2⟩)

theorem preIdCmp_law : IsLawCmp preIdCmp := by
  refine ⟨?_, ?_, ?_⟩
  · intro a b
    cases a <;> cases b
    · exact natCmp_law.symm _ _
    · rfl
    · rfl
    · exact strCmp_law.symm _ _
  · intro a b h
    cases a <;> cases b
    · rw [natCmp_law.eq_iff h]
    · exact Ordering.noConfusion h
    · exact Ordering.noConfusion h
    · rw [strCmp_law.eq_iff h]
  · intro a b c h1 h2
    cases a <;> cases b <;> cases c
    · exact natCmp_law.lt_trans h1 h2
    · rfl
    · exact Ordering.noConfusion h2
    · rfl
    · exact Ordering.noConfusion h1
    · exact Ordering.noConfusion h1
    · exact Ordering.noConfusion h2
    · exact strCmp_law.lt_trans h1 h2

theorem preCmp_law : IsLawCmp preCmp := by
  have hl := lexCmp_law preIdCmp_law
  refine ⟨?_, ?_, ?_⟩
  · intro a b
    cases a <;> cases b
    · rfl
    · rfl
    · rfl
    · exact hl.symm _ _
  · intro a b h
    cases a <;> cases b
    · rfl
    · exact Ordering.noConfusion h
    · exact Ordering.noConfusion h
    · exact hl.eq_iff h
  · intro a b c h1 h2
    cases a <;> cases b <;> cases c
    · exact Ordering.noConfusion h1
    · exact Ordering.noConfusion h1
    · exact Ordering.noConfusion h1
    · exact Ordering.noConfusion h1
    · exact Ordering.noConfusion h2
    · exact Ordering.noConfusion h2
    · rfl
    · exact hl.lt_trans h1 h2

/-- The comparison key used by the crate for all-digit build identifiers:
length after trimming leading zeros, the trimmed digits, then the
untrimmed length. -/
def digitKey (a : List Char) : Nat × List Char × Nat :=
  ((a.dropWhile (· = '0')).length, (a.dropWhile (· = '0'), a.length))

/-- Lexicographic comparison of digit keys. -/
def digitKeyCmp : Nat × List Char × Nat → Nat × List Char × Nat → Ordering :=
  prodCmp natCmp (prodCmp strCmp natCmp)

theorem digitKeyCmp_law : IsLawCmp digitKeyCmp :=
  prodCmp_law natCmp_law (prodCmp_law strCmp_law natCmp_law)

theorem buildIdCmp_digit {a b : List Char} (ha : a.all Char.isDigit)
    (hb : b.all Char.isDigit) :
    buildIdCmp a b = digitKeyCmp (digitKey a) (digitKey b) := by
  simp [buildIdCmp, ha, hb, digitKeyCmp, digitKey, prodCmp]

theorem dropWhile_zero_inj {a b : List Char}
    (h1 : a.dropWhile (· = '0') = b.dropWhile (· = '0'))
    (h2 : a.length = b.length) : a = b := by
  have hta : a.takeWhile (· = '0') ++ a.dropWhile (· = '0') = a :=
    List.takeWhile_append_dropWhile _ _
  have htb : b.takeWhile (· = '0') ++ b.dropWhile (· = '0') = b :=
    List.takeWhile_append_dropWhile _ _
  have hra : a.takeWhile (· = '0') =
      List.replicate (a.takeWhile (· = '0')).length '0' :=
    List.eq_replicate_of_mem (fun c hc => by
      simpa using List.mem_takeWhile_imp hc)
  have hrb : b.takeWhile (· = '0') =
      List.replicate (b.takeWhile (· = '0')).length '0' :=
    List.eq_replicate_of_mem (fun c hc => by
      simpa using List.mem_takeWhile_imp hc)
  have hla : (a.takeWhile (· = '0')).length + (a.dropWhile (· = '0')).length
      = a.length := by
    rw [← List.length_append, hta]
  have hlb : (b.takeWhile (· = '0')).length + (b.dropWhile (· = '0')).length
      = b.length := by
    rw [← List.length_append, htb]
  have hlen : (a.takeWhile (· = '0')).length = (b.takeWhile (· = '0')).length := by
    have := congrArg List.length h1
    omega
  calc a = a.takeWhile (· = '0') ++ a.dropWhile (· = '0') := hta.symm
    _ = b.takeWhile (· = '0') ++ b.dropWhile (· = '0') := by
        rw [hra, hrb, hlen, h1]
    _ = b := htb

theorem buildIdCmp_law : IsLawCmp buildIdCmp := by
  refine ⟨?_, ?_, ?_⟩
  · intro a b
    by_cases ha : a.all Char.isDigit <;> by_cases hb : b.all Char.isDigit
    · rw [buildIdCmp_digit ha hb, buildIdCmp_digit hb ha]
      exact digitKeyCmp_law.symm _ _
    · simp [buildIdCmp, ha, hb, Ordering.swap]
    · simp [buildIdCmp, ha, hb, Ordering.swap]
    · simp only [buildIdCmp, ha, hb, if_false, if_neg]
      exact strCmp_law.symm _ _
  · intro a b h
    by_cases ha : a.all Char.isDigit <;> by_cases hb : b.all Char.isDigit
    · rw [buildIdCmp_digit ha hb] at h
      have hk := digitKeyCmp_law.eq_iff h
      exact dropWhile_zero_inj (congrArg (fun k => k.2.1) hk)
        (congrArg (fun k => k.2.2) hk)
    · simp [buildIdCmp, ha, hb] at h
    · simp [buildIdCmp, ha, hb] at h
    · simp only [buildIdCmp, ha, hb, if_false, if_neg] at h
      exact strCmp_law.eq_iff h
  · intro a b c h1 h2
    by_cases ha : a.all Char.isDigit <;> by_cases hb : b.all Char.isDigit <;>
      by_cases hc : c.all Char.isDigit
    · rw [buildIdCmp_digit ha hb] at h1
      rw [buildIdCmp_digit hb hc] at h2
      rw [buildIdCmp_digit ha hc]
      exact digitKeyCmp_law.lt_trans h1 h2
    · simp [buildIdCmp, ha, hc]
    · simp [buildIdCmp, hb, hc] at h2
    · simp [buildIdCmp, ha, hc]
    · simp [buildIdCmp, ha, hb] at h1
    · simp [buildIdCmp, ha, hb] at h1
    · simp [buildIdCmp, hb, hc] at h2
    · simp only [buildIdCmp, ha, hb, hc, if_false, if_neg] at h1 h2 ⊢
      exact strCmp_law.lt_trans h1 h2

theorem buildCmp_law : IsLawCmp buildCmp := lexCmp_law buildIdCmp_law

/-- A semantic version viewed as its comparison key. -/
def sverKey (v : SemVer) : Nat × Nat × Nat × List PreId × List (List Char) :=
  (v.major, v.minor, v.patch, v.pre, v.build)

/-- Lexicographic comparison of version keys. -/
def sverKeyCmp :
    Nat × Nat × Nat × List PreId × List (List Char) →
    Nat × Nat × Nat × List PreId × List (List Char) → Ordering :=
  prodCmp natCmp (prodCmp natCmp (prodCmp natCmp (prodCmp preCmp buildCmp)))

theorem sverCmp_eq_key (a b : SemVer) :
    sverCmp a b = sverKeyCmp (sverKey a) (sverKey b) := rfl

theorem sverKeyCmp_law : IsLawCmp sverKeyCmp :=
  prodCmp_law natCmp_law (prodCmp_law natCmp_law
    (prodCmp_law natCmp_law (prodCmp_law preCmp_law buildCmp_law)))

theorem sverCmp_law : IsLawCmp sverCmp := by
  refine ⟨?_, ?_, ?_⟩
  · intro a b
    rw [sverCmp_eq_key, sverCmp_eq_key]
    exact sverKeyCmp_law.symm _ _
  · intro a b h
    rw [sverCmp_eq_key] at h
    have hk := sverKeyCmp_law.eq_iff h
    cases a; cases b
    simp only [sverKey, Prod.mk.injEq] at hk
    obtain ⟨e1, e2, e3, e4, e5⟩ := hk
    simp [e1, e2, e3, e4, e5]
  · intro a b c h1 h2
    rw [sverCmp_eq_key] at h1 h2 ⊢
    exact sverKeyCmp_law.lt_trans h1 h2

/-! ## Puppetfile parser (model of src/puppetfile.rs) -/

/-- Model of src/models.rs `GitRef`. -/
inductive GitRef where
  | Head
  | Commit (s : List Char)
  | Tag (s : List Char)
  | Branch (s : List Char)
deriving DecidableEq, Repr

/-- Model of src/models.rs `GitSpec`. -/
structure GitSpec where
  url : Option (List Char)
  reference : GitRef
  fallback : Option (List Char)
  link : Bool
deriving DecidableEq, Repr

/-- Model of src/models.rs `Module`. -/
inductive Module' where
  | Forge (name : List Char) (version : SemVer)
  | Git (name : List Char) (spec : GitSpec)
deriving DecidableEq, Repr

/-- Split on newline characters, as `content.split("\n")`. -/
def splitLinesAux : List Char → List Char → List (List Char)
  | [], acc => [acc.reverse]
  | c :: rest, acc =>
    if c = '\n' then acc.reverse :: splitLinesAux rest []
    else splitLinesAux rest (c :: acc)

/-- All lines of the input. -/
def splitLines (cs : List Char) : List (List Char) := splitLinesAux cs []

/-- Rust `str::trim`. -/
def trim (cs : List Char) : List Char :=
  ((cs.dropWhile isWs).reverse.dropWhile isWs).reverse

/-- The `line.split_once('#')` comment stripping inside the loop: keep the
part before the first `#` (trimmed); a line without `#` is unchanged. -/
def stripComment (cs : List Char) : List Char :=
  if cs.any (· = '#') then trim (cs.takeWhile (· ≠ '#')) else cs

/-- Name normalization of forge modules: `name.replace("/", "-")`. -/
def normalizeName (cs : List Char) : List Char :=
  cs.map (fun c => if c = '/' then '-' else c)

/-- The `FORGE_MODULE_RE` name group (one or more non-quote characters, a
hyphen or slash separator, one or more non-quote characters): the run of
non-quote characters before the closing quote must carry a separator at
some interior position. -/
def nameShapeOk (name : List Char) : Bool :=
  3 ≤ name.length &&
    ((name.drop 1).take (name.length - 2)).any (fun c => c = '-' || c = '/')

/-- The `(?P<version>.*)['\"]` tail of `FORGE_MODULE_RE`: the greedy dot
captures everything before the last quote; no quote at all means no match. -/
def lastQuoteSplit (cs : List Char) : Option (List Char) :=
  match (cs.reverse.dropWhile (fun c => !isQuote c)) with
  | _ :: restRev => some restRev.reverse
  | [] => none

/-- Captures of `FORGE_MODULE_RE`
(`^\s*(?:mod)\s+['\"](name)['\"],\s+['\"](version)['\"]`). -/
structure ForgeCaps where
  name : List Char
  version : List Char
deriving DecidableEq, Repr

/-- The `,\s+['\"](version)['\"]` part of `FORGE_MODULE_RE` after the
closing quote of the name. -/
def forgeAfterName (r5 : List Char) : Option (List Char) :=
  match r5 with
  | ',' :: c2 :: r6 =>
    if isWs c2 then
      match r6.dropWhile isWs with
      | q3 :: r8 => if isQuote q3 then lastQuoteSplit r8 else none
      | [] => none
    else none
  | _ => none

/-- `FORGE_MODULE_RE` from the character after the opening quote of the
name: capture the non-quote run, require the separator shape, then the
version part. -/
def forgeFromQuote (r4 : List Char) : Option ForgeCaps :=
  match r4.dropWhile (fun c => !isQuote c) with
  | _ :: r5 =>
    if nameShapeOk (r4.takeWhile (fun c => !isQuote c)) then
      match forgeAfterName r5 with
      | some version => some ⟨r4.takeWhile (fun c => !isQuote c), version⟩
      | none => none
    else none
  | [] => none

/-- Match of `FORGE_MODULE_RE` against a (trimmed) line. -/
def forgeMatch (cs : List Char) : Option ForgeCaps :=
  match cs.dropWhile isWs with
  | 'm' :: 'o' :: 'd' :: c :: r2 =>
    if isWs c then
      match r2.dropWhile isWs with
      | q1 :: r4 => if isQuote q1 then forgeFromQuote r4 else none
      | [] => none
    else none
  | _ => none

/-- `GIT_MODULE_RE` from the character after the opening quote of the
name: capture the nonempty non-quote run, then `\s*,` and end of line. -/
def gitFromQuote (r4 : List Char) : Option (List Char) :=
  match r4.dropWhile (fun c => !isQuote c) with
  | _ :: r5 =>
    if (r4.takeWhile (fun c => !isQuote c)).isEmpty then none
    else
      match r5.dropWhile isWs with
      | [','] => some (r4.takeWhile (fun c => !isQuote c))
      | _ => none
  | [] => none

/-- Match of `GIT_MODULE_RE` (`^\s*(?:mod)\s+['\"](name)['\"]\s*,$`)
against a (trimmed) line; yields the name capture. -/
def gitModMatch (cs : List Char) : Option (List Char) :=
  match cs.dropWhile isWs with
  | 'm' :: 'o' :: 'd' :: c :: r2 =>
    if isWs c then
      match r2.dropWhile isWs with
      | q1 :: r4 => if isQuote q1 then gitFromQuote r4 else none
      | [] => none
    else none
  | _ => none

/-- The keyword alternation `git|commit|tag|branch|ref|link|fallback` of
`GIT_ATTRIBUTE_RE`; none of the keywords is a prefix of another, so
leftmost-first alternation is plain prefix matching. -/
def attrKeyword : List Char → Option (List Char × List Char)
  | 'g' :: 'i' :: 't' :: rest => some (chars "git", rest)
  | 'c' :: 'o' :: 'm' :: 'm' :: 'i' :: 't' :: rest => some (chars "commit", rest)
  | 't' :: 'a' :: 'g' :: rest => some (chars "tag", rest)
  | 'b' :: 'r' :: 'a' :: 'n' :: 'c' :: 'h' :: rest => some (chars "branch", rest)
  | 'r' :: 'e' :: 'f' :: rest => some (chars "ref", rest)
  | 'l' :: 'i' :: 'n' :: 'k' :: rest => some (chars "link", rest)
  | 'f' :: 'a' :: 'l' :: 'l' :: 'b' :: 'a' :: 'c' :: 'k' :: rest =>
    some (chars "fallback", rest)
  | _ => none

/-- Captures of `GIT_ATTRIBUTE_RE`
(`^\s*:(name)\s*=>\s*['\"]?(?P<value>[^'\"]+)['\"']?$`). -/
structure AttrCaps where
  name : List Char
  value : List Char
deriving DecidableEq, Repr

/-- Match of `GIT_ATTRIBUTE_RE` against a (trimmed) line. -/
def attrMatch (cs : List Char) : Option AttrCaps :=
  match cs.dropWhile isWs with
  | ':' :: r1 =>
    match attrKeyword r1 with
    | some kwrest =>
      match kwrest.2.dropWhile isWs with
      | '=' :: '>' :: r4 =>
        let r5 := r4.dropWhile isWs
        let r6 := match r5 with
                  | q :: rest => if isQuote q then rest else r5
                  | [] => r5
        let value := r6.takeWhile (fun c => !isQuote c)
        if value.isEmpty then none
        else
          match r6.dropWhile (fun c => !isQuote c) with
          | [] => some ⟨kwrest.1, value⟩
          | [_] => some ⟨kwrest.1, value⟩
          | _ => none
      | _ => none
    | none => none
  | _ => none

/-- The `match name` over a `Module::Git` spec in the attribute arm of
src/puppetfile.rs; `none` is the `other` arm (unknown attribute, e.g.
`ref`, which the regex admits but the code does not handle). -/
def applyAttr (spec : GitSpec) (kw value : List Char) : Option GitSpec :=
  if kw = chars "git" then some { spec with url := some value }
  else if kw = chars "tag" then some { spec with reference := .Tag value }
  else if kw = chars "branch" then some { spec with reference := .Branch value }
  else if kw = chars "commit" then some { spec with reference := .Commit value }
  else if kw = chars "fallback" then some { spec with fallback := some value }
  else if kw = chars "link" then some { spec with link := true }
  else none

/-- The line loop of `parse_puppetfile`, with the accumulated output, the
module currently being accumulated, and Rust control flow modelled
explicitly: `break` returns immediately (after the end-of-loop
finalization of the current module) and the `unwrap` on
`Version::parse` of a forge line returns `none` (a panic that aborts the
process). -/
def procLines : List (List Char) → List Module' → Option Module' →
    Option (List Module')
  | [], mods, cur => some (mods ++ cur.toList)
  | line :: rest, mods, cur =>
    match forgeMatch line with
    | some caps =>
      match parseSemVer caps.version with
      | none => none
      | some v =>
        procLines rest ((mods ++ cur.toList) ++
          [.Forge (normalizeName caps.name) v]) none
    | none =>
      match gitModMatch line with
      | some name =>
        procLines rest (mods ++ cur.toList)
          (some (.Git name ⟨none, .Head, none, false⟩))
      | none =>
        match attrMatch line with
        | some caps =>
          match cur with
          | none => some mods
          | some (.Forge n v) => some (mods ++ [.Forge n v])
          | some (.Git gname spec) =>
            match applyAttr spec caps.name caps.value with
            | some spec2 => procLines rest mods (some (.Git gname spec2))
            | none => some (mods ++ [.Git gname spec])
        | none => procLines rest mods cur

/-- Model of `parse_puppetfile` in src/puppetfile.rs: split into lines,
trim, drop empty and `#`-leading lines, strip trailing comments, then run
the line loop. `none` models a panic of the whole invocation. -/
def parse_puppetfile (content : List Char) : Option (List Module') :=
  procLines
    (((splitLines content).map trim).filter
        (fun l => !l.isEmpty && l.head? ≠ some '#')
      |>.map stripComment)
    [] none

/-! ## Forge API cache (model of src/forge.rs) -/

/-- Model of `CacheEntry` in src/forge.rs: the version as the *string* it
was stored with, the deprecation flag, and the Unix timestamp (`u64`,
modelled as `Nat`) of the last successful fetch. -/
structure CacheEntry where
  version : List Char
  is_deprecated : Bool
  time_fetched : Nat
deriving DecidableEq, Repr

/-- The in-memory cache `HashMap<String, CacheEntry>`, as an association
list (lookup by first occurrence; the code never relies on iteration
order). -/
abbrev Cache := List (List Char × CacheEntry)

/-- `HashMap::get`. -/
def lookupC (cache : Cache) (name : List Char) : Option CacheEntry :=
  match cache with
  | [] => none
  | e :: rest => if e.1 = name then some e.2 else lookupC rest name

/-- In-place overwrite through `HashMap::get_mut`: the first entry with
the given key gets the new value, every key stays put. -/
def updateC (cache : Cache) (name : List Char) (entry : CacheEntry) : Cache :=
  match cache with
  | [] => []
  | e :: rest =>
    if e.1 = name then (e.1, entry) :: rest else e :: updateC rest name entry

/-- Wrapping `u64` subtraction, for `now - 60 * 60` (faithful for
arguments below `2^64`; release builds wrap on underflow). -/
def u64Sub (a b : Nat) : Nat :=
  (a + 18446744073709551616 - b) % 18446744073709551616

/-- Outcome of one HTTP request to the forge, as far as `fetch_data`
distinguishes it: a communication error, a body that is not valid JSON
for `ForgeResponse`, or a decoded body carrying the current release's
version string and the optional `deprecated_at` timestamp. -/
inductive HttpOutcome where
  | netErr (e : List Char)
  | badJson
  | ok (version : List Char) (deprecated_at : Option Nat)
deriving DecidableEq, Repr

/-- The transport collaborator: the response the registry gives for a
canonical module name (the session is stateless across calls within one
run for the purposes of the claims). -/
def Transport := List Char → HttpOutcome

/-- Model of `ForgeApi::fetch_data`: canonicalize the name (`/` → `-`),
perform the request, decode, and require the fetched version string to be
valid semver; every failure is a recoverable `Err(String)`. -/
def fetch_data (tr : Transport) (name : List Char) :
    Except (List Char) (SemVer × Option Nat) :=
  match tr (normalizeName name) with
  | .netErr e => .error (chars "Failure in communication with forge: " ++ e)
  | .badJson => .error (chars "Failed to parse forge json")
  | .ok vs dep =>
    match parseSemVer vs with
    | none => .error (chars "Returned version is not semver-compatible")
    | some v => .ok (v, dep)

/-- Model of `ForgeApi::get_data`: ensure a fresh entry for `name` exists
at wall-clock time `now`. Returns the new cache and the number of
transport invocations (`fetch_data` calls). Note the staleness test is
`time_fetched < now - 60 * 60`. -/
def get_data (cache : Cache) (name : List Char) (now : Nat) (tr : Transport) :
    Except (List Char) Cache × Nat :=
  match lookupC cache name with
  | some e =>
    if e.time_fetched < u64Sub now 3600 then
      match fetch_data tr name with
      | .error m => (.error m, 1)
      | .ok (v, dep) =>
        (.ok (updateC cache name ⟨svToString v, dep.isSome, now⟩), 1)
    else (.ok cache, 0)
  | none =>
    match fetch_data tr name with
    | .error m => (.error m, 1)
    | .ok (v, dep) =>
      (.ok (cache ++ [(name, ⟨svToString v, dep.isSome, now⟩)]), 1)

/-- Model of `ForgeApi::get_version`: refresh via `get_data`, then
re-parse the stored version string and `unwrap` it — `none` models the
panic when that string is not valid semver. The outer `some (.error _)`
is the recoverable `Err` propagated by `?`. -/
def get_version (cache : Cache) (name : List Char) (now : Nat)
    (tr : Transport) : Option (Except (List Char) (SemVer × Cache)) :=
  match get_data cache name now tr with
  | (.error m, _) => some (.error m)
  | (.ok c2, _) =>
    match lookupC c2 name with
    | none => none
    | some e =>
      match parseSemVer e.version with
      | none => none
      | some v => some (.ok (v, c2))

/-- Model of `ForgeApi::is_deprecated`: refresh via `get_data`, then read
the stored flag (the lookup `unwrap` cannot fail after a successful
`get_data`, but is still modelled). -/
def is_deprecated (cache : Cache) (name : List Char) (now : Nat)
    (tr : Transport) : Option (Except (List Char) (Bool × Cache)) :=
  match get_data cache name now tr with
  | (.error m, _) => some (.error m)
  | (.ok c2, _) =>
    match lookupC c2 name with
    | none => none
    | some e => some (.ok (e.is_deprecated, c2))

/-! ## Reconciliation loop (model of the `ForgeBranches` view, src/main.rs) -/

/-- Model of src/models.rs `BranchMeta`. -/
structure BranchMeta where
  name : List Char
  modules : List Module'
deriving DecidableEq, Repr

/-- The inner `for branch_module in branch.modules` scan: the first
`Module::Forge` declaration with the given name (the loop `break`s on the
first match). -/
def branchFirstForge (name : List Char) : List Module' → Option SemVer
  | [] => none
  | .Forge n v :: rest =>
    if n = name then some v else branchFirstForge name rest
  | .Git _ _ :: rest => branchFirstForge name rest

/-- The per-module branch scan of the `ForgeBranches` view: starting from
`Version::new(0, 0, 0)`, raise `max_in_use_version` with `std::cmp::max`
at each branch's first matching declaration and record that declaration
in `branch_versions` (branches without a match insert nothing). -/
def computeRow (name : List Char) (branches : List BranchMeta) :
    SemVer × List (List Char × SemVer) :=
  branches.foldl
    (fun acc br =>
      match branchFirstForge name br.modules with
      | some v => (svMax v acc.1, acc.2 ++ [(br.name, v)])
      | none => acc)
    (zeroVer, [])

/-- Model of `ModuleRow` in src/main.rs (`branch_versions` keeps only the
inserted `Some` entries; a branch absent from it is the `None` case). -/
structure ModuleRow where
  name : List Char
  forge_version : SemVer
  forge_deprecated : Bool
  max_in_use_version : SemVer
  branch_versions : List (List Char × SemVer)
deriving DecidableEq, Repr

/-- The `for mod_name in forge_names` loop of the `ForgeBranches` view:
`api.get_version(..).unwrap()` and `api.is_deprecated(..).unwrap()` —
`none` models the panic of the whole run when either lookup returns an
error (or panics itself). -/
def buildModuleRows (names : List (List Char)) (branches : List BranchMeta)
    (cache : Cache) (now : Nat) (tr : Transport) :
    Option (List ModuleRow × Cache) :=
  match names with
  | [] => some ([], cache)
  | n :: rest =>
    match get_version cache n now tr with
    | none => none
    | some (.error _) => none
    | some (.ok (v, c1)) =>
      match is_deprecated c1 n now tr with
      | none => none
      | some (.error _) => none
      | some (.ok (d, c2)) =>
        match buildModuleRows rest branches c2 now tr with
        | none => none
        | some (rows, c3) =>
          some (⟨n, v, d, (computeRow n branches).1,
            (computeRow n branches).2⟩ :: rows, c3)

/-- The three freshness states of the registry's latest version in the
spec's terms (Deprecated / AheadOfUse / Nominal). -/
inductive ForgeState where
  | Deprecated
  | AheadOfUse
  | Nominal
deriving DecidableEq, Repr

/-- The classification chain applied to the forge cell of each row in
src/main.rs (identically in the terminal, Jira and Markdown arms):
deprecated first, else `forge_version > max_in_use_version`, else plain. -/
def classifyForge (deprecated : Bool) (forge_version max_in_use : SemVer) :
    ForgeState :=
  if deprecated then .Deprecated
  else if sverLt max_in_use forge_version then .AheadOfUse
  else .Nominal

/-! ## Helper lemmas about list scanning -/

theorem takeWhile_append_all {α} {p : α → Bool} {l : List α} (l2 : List α)
    (h : ∀ c ∈ l, p c = true) :
    (l ++ l2).takeWhile p = l ++ l2.takeWhile p := by
  induction l with
  | nil => simp
  | cons x xs ih =>
    simp only [List.cons_append, List.takeWhile_cons, h x (by simp)]
    simp [ih (fun c hc => h c (by simp [hc]))]

theorem dropWhile_append_all {α} {p : α → Bool} {l : List α} (l2 : List α)
    (h : ∀ c ∈ l, p c = true) : (l ++ l2).dropWhile p = l2.dropWhile p := by
  induction l with
  | nil => simp
  | cons x xs ih =>
    simp only [List.cons_append, List.dropWhile_cons, h x (by simp)]
    exact ih (fun c hc => h c (by simp [hc]))

theorem nameShapeOk_false {name : List Char}
    (h : ∀ c ∈ name, c ≠ '-' ∧ c ≠ '/') : nameShapeOk name = false := by
  have hany : ((name.drop 1).take (name.length - 2)).any
      (fun c => c = '-' || c = '/') = false := by
    rw [List.any_eq_false]
    intro c hc
    have hcname : c ∈ name := List.mem_of_mem_drop (List.mem_of_mem_take hc)
    simp [(h c hcname).1, (h c hcname).2]
  unfold nameShapeOk
  rw [hany, Bool.and_false]

/-! ## Claim C8 -/

/-- Claim C8: parsing the three lines `mod "myorg/thing",`,
`:git => 'https://example.com/r.git'` and `:branch => 'main'` yields
exactly one source-module declaration named `myorg/thing` whose spec has
the given URL, reference `Branch "main"`, no fallback and `link = false`;
the unset attribute (`fallback`) keeps its default. -/
theorem c8_source_module_scenario :
    parse_puppetfile (chars "mod \"myorg/thing\",\n" ++
        (':' :: chars "git => ") ++
        (squote :: chars "https://example.com/r.git") ++ [squote] ++
        ('\n' :: ':' :: chars "branch => ") ++
        (squote :: chars "main") ++ [squote]) =
      some [.Git (chars "myorg/thing")
        ⟨some (chars "https://example.com/r.git"),
          .Branch (chars "main"), none, false⟩] := by
  decide

/-! ## Claim C1 -/

/-- Claim C1 counterexample: on a registry-module line whose version is
not valid semver, `parse_puppetfile` does not report a recoverable
parse-fatal error for the branch — it panics (`none`: the `unwrap` on
`Version::parse` aborts the whole invocation), contradicting the claim
that the invocation never crashes. -/
theorem c1_counterexample :
    parse_puppetfile (chars "mod \"x-y\", \"not-a-version\"") = none := by
  decide

/-- Claim C1 (amended): a line matching the registry-module shape whose
version field is not valid semver makes `parse_puppetfile` panic — the
whole invocation aborts and no declarations at all are produced, no
matter what the rest of the manifest is; moreover the spec's example
line `mod "a", "not-a-version"` does not match the registry-module shape
at all (its name has no `-` or `/`) and is silently skipped. -/
theorem c1_amended :
    (∀ line caps rest mods cur, forgeMatch line = some caps →
        parseSemVer caps.version = none →
        procLines (line :: rest) mods cur = none) ∧
    parse_puppetfile (chars "mod \"a\", \"not-a-version\"") = some [] := by
  constructor
  · intro line caps rest mods cur hm hp
    simp [procLines, hm, hp]
  · decide

/-- Witness for `c1_amended` at a concrete panicking line. -/
theorem c1_amended_witness :
    forgeMatch (chars "mod \"x-y\", \"bad\"") =
        some ⟨chars "x-y", chars "bad"⟩ ∧
      parseSemVer (chars "bad") = none ∧
      procLines [chars "mod \"x-y\", \"bad\""] [] none = none :=
  ⟨by decide, by decide,
    c1_amended.1 _ ⟨chars "x-y", chars "bad"⟩ [] [] none
      (by decide) (by decide)⟩

/-! ## Claim C3 -/

/-- Claim C3 counterexample: after an attribute-line anomaly (here an
attribute line with no module being accumulated), a registry-module line
later in the file is *not* parsed: the result has zero declarations,
although the claim says module-open and registry-module lines still
match after the anomaly. -/
theorem c3_counterexample :
    parse_puppetfile (chars ":git => \"u\"\nmod \"a-b\", \"1.0.0\"") =
      some [] := by
  decide

/-- Claim C3 (amended): an attribute-line anomaly (attribute line with no
module being accumulated, attribute line while accumulating a registry
module, or an unrecognized attribute name) halts parsing of the
*entire* remainder of the file — the `break` leaves the line loop, so no
later line of any shape is processed; the module being accumulated, if
any, is still finalized and appended. -/
theorem c3_amended :
    ∀ line caps rest mods cur, attrMatch line = some caps →
      forgeMatch line = none → gitModMatch line = none →
      (cur = none → procLines (line :: rest) mods cur = some mods) ∧
      (∀ n v, cur = some (.Forge n v) →
        procLines (line :: rest) mods cur = some (mods ++ [.Forge n v])) ∧
      (∀ gname spec, cur = some (.Git gname spec) →
        applyAttr spec caps.name caps.value = none →
        procLines (line :: rest) mods cur = some (mods ++ [.Git gname spec])) := by
  intro line caps rest mods cur ha hf hg
  refine ⟨?_, ?_, ?_⟩
  · intro hcur; subst hcur; simp [procLines, ha, hf, hg]
  · intro n v hcur; subst hcur; simp [procLines, ha, hf, hg]
  · intro gname spec hcur happ; subst hcur
    simp [procLines, ha, hf, hg, happ]

/-- Witness for `c3_amended`: the anomaly line of `c3_counterexample`,
with a registry-module line still pending after it. -/
theorem c3_amended_witness :
    attrMatch (chars ":git => \"u\"") = some ⟨chars "git", chars "u"⟩ ∧
      forgeMatch (chars ":git => \"u\"") = none ∧
      gitModMatch (chars ":git => \"u\"") = none ∧
      procLines [chars ":git => \"u\"", chars "mod \"a-b\", \"1.0.0\""]
        [] none = some [] :=
  ⟨by decide, by decide, by decide,
    (c3_amended (chars ":git => \"u\"") ⟨chars "git", chars "u"⟩
      [chars "mod \"a-b\", \"1.0.0\""] [] none
      (by decide) (by decide) (by decide)).1 rfl⟩

/-! ## Claim C9 -/

/-- A registry-style manifest line `mod "<name>", "<ver>"` (double quotes,
one space after `mod` and after the comma). -/
def regLine (name ver : List Char) : List Char :=
  'm' :: 'o' :: 'd' :: ' ' :: dquote ::
    (name ++ (dquote :: ',' :: ' ' :: dquote :: (ver ++ [dquote])))

/-- Claim C9: a registry-style line `mod "<name>", "<ver>"` whose quoted
name contains neither `-` nor `/` matches neither the registry-module
shape (the name group requires an interior separator) nor the
source-module shape (the line does not end after the comma) nor the
attribute shape; the line loop emits no declaration for it and continues
with the rest of the file unchanged. -/
theorem c9_separatorless_registry_line (name ver : List Char)
    (rest : List (List Char)) (mods : List Module') (cur : Option Module')
    (hq : ∀ c ∈ name, isQuote c = false)
    (hsep : ∀ c ∈ name, c ≠ '-' ∧ c ≠ '/') :
    forgeMatch (regLine name ver) = none ∧
    gitModMatch (regLine name ver) = none ∧
    attrMatch (regLine name ver) = none ∧
    procLines (regLine name ver :: rest) mods cur = procLines rest mods cur := by
  have hdqf : (fun c => !isQuote c) dquote = false := by decide
  have hta : (name ++ (dquote :: ',' :: ' ' :: dquote ::
      (ver ++ [dquote]))).takeWhile (fun c => !isQuote c) = name := by
    rw [takeWhile_append_all _ (fun c hc => by simp [hq c hc])]
    simp [List.takeWhile_cons, hdqf]
  have hda : (name ++ (dquote :: ',' :: ' ' :: dquote ::
      (ver ++ [dquote]))).dropWhile (fun c => !isQuote c) =
      dquote :: ',' :: ' ' :: dquote :: (ver ++ [dquote]) := by
    rw [dropWhile_append_all _ (fun c hc => by simp [hq c hc])]
    simp [List.dropWhile_cons, hdqf]
  have hforge : forgeFromQuote (name ++ (dquote :: ',' :: ' ' :: dquote ::
      (ver ++ [dquote]))) = none := by
    simp [forgeFromQuote, hda, hta, nameShapeOk_false hsep]
  have hgit : gitFromQuote (name ++ (dquote :: ',' :: ' ' :: dquote ::
      (ver ++ [dquote]))) = none := by
    simp only [gitFromQuote, hda, hta]
    cases name with
    | nil => rfl
    | cons x xs => rfl
  have e1 : forgeMatch (regLine name ver) =
      forgeFromQuote (name ++ (dquote :: ',' :: ' ' :: dquote ::
        (ver ++ [dquote]))) := rfl
  have e2 : gitModMatch (regLine name ver) =
      gitFromQuote (name ++ (dquote :: ',' :: ' ' :: dquote ::
        (ver ++ [dquote]))) := rfl
  have e3 : attrMatch (regLine name ver) = none := rfl
  refine ⟨e1.trans hforge, e2.trans hgit, e3, ?_⟩
  simp [procLines, e1.trans hforge, e2.trans hgit, e3]

/-- Witness for `c9_separatorless_registry_line` at the concrete line
`mod "stdlib", "8.5.0"`. -/
theorem c9_witness :
    (∀ c ∈ chars "stdlib", isQuote c = false) ∧
      (∀ c ∈ chars "stdlib", c ≠ '-' ∧ c ≠ '/') ∧
      procLines [regLine (chars "stdlib") (chars "8.5.0")] [] none =
        procLines [] [] none :=
  ⟨by decide, by decide,
    (c9_separatorless_registry_line (chars "stdlib") (chars "8.5.0")
      [] [] none (by decide) (by decide)).2.2.2⟩

/-! ## Claim C5 -/

theorem normalizeName_no_slash (s : List Char) : '/' ∉ normalizeName s := by
  intro hmem
  simp only [normalizeName, List.mem_map] at hmem
  obtain ⟨a, _, ha⟩ := hmem
  by_cases h : a = '/'
  · rw [if_pos h] at ha; exact absurd ha (by decide)
  · rw [if_neg h] at ha; exact h ha

theorem procLines_forge_no_slash :
    ∀ lines mods cur out, procLines lines mods cur = some out →
      (∀ n v, Module'.Forge n v ∈ mods → '/' ∉ n) →
      (∀ n v, cur = some (.Forge n v) → '/' ∉ n) →
      ∀ n v, Module'.Forge n v ∈ out → '/' ∉ n := by
  intro lines
  induction lines with
  | nil =>
    intro mods cur out hp hmods hcur n v hmem
    simp only [procLines, Option.some.injEq] at hp
    subst hp
    rcases List.mem_append.mp hmem with h | h
    · exact hmods n v h
    · cases cur with
      | none => simp at h
      | some m =>
        simp only [Option.toList_some, List.mem_singleton] at h
        exact hcur n v (by rw [h])
  | cons line rest ih =>
    intro mods cur out hp hmods hcur n v hmem
    cases hf : forgeMatch line with
    | some caps =>
      cases hv : parseSemVer caps.version with
      | none =>
        rw [show procLines (line :: rest) mods cur = none by
          simp [procLines, hf, hv]] at hp
        exact absurd hp (by simp)
      | some v2 =>
        rw [show procLines (line :: rest) mods cur =
            procLines rest
              (mods ++ cur.toList ++ [.Forge (normalizeName caps.name) v2])
              none by simp [procLines, hf, hv]] at hp
        refine ih _ _ _ hp ?_ (by simp) n v hmem
        intro n2 v2' hm2
        rcases List.mem_append.mp hm2 with h2 | h2
        · rcases List.mem_append.mp h2 with h3 | h3
          · exact hmods n2 v2' h3
          · cases cur with
            | none => simp at h3
            | some m =>
              simp only [Option.toList_some, List.mem_singleton] at h3
              exact hcur n2 v2' (by rw [h3])
        · simp only [List.mem_singleton, Module'.Forge.injEq] at h2
          rw [h2.1]
          exact normalizeName_no_slash caps.name
    | none =>
      cases hg : gitModMatch line with
      | some gname =>
        rw [show procLines (line :: rest) mods cur =
            procLines rest (mods ++ cur.toList)
              (some (.Git gname ⟨none, .Head, none, false⟩)) by
          simp [procLines, hf, hg]] at hp
        refine ih _ _ _ hp ?_ (by simp) n v hmem
        intro n2 v2' hm2
        rcases List.mem_append.mp hm2 with h2 | h2
        · exact hmods n2 v2' h2
        · cases cur with
          | none => simp at h2
          | some m =>
            simp only [Option.toList_some, List.mem_singleton] at h2
            exact hcur n2 v2' (by rw [h2])
      | none =>
        cases ha : attrMatch line with
        | some caps =>
          cases cur with
          | none =>
            rw [show procLines (line :: rest) mods none = some mods by
              simp [procLines, hf, hg, ha]] at hp
            simp only [Option.some.injEq] at hp
            subst hp
            exact hmods n v hmem
          | some m =>
            cases m with
            | Forge n3 v3 =>
              rw [show procLines (line :: rest) mods
                  (some (.Forge n3 v3)) = some (mods ++ [.Forge n3 v3]) by
                simp [procLines, hf, hg, ha]] at hp
              simp only [Option.some.injEq] at hp
              subst hp
              rcases List.mem_append.mp hmem with h2 | h2
              · exact hmods n v h2
              · simp only [List.mem_singleton, Module'.Forge.injEq] at h2
                rw [h2.1]
                exact hcur n3 v3 rfl
            | Git gname spec =>
              cases hap : applyAttr spec caps.name caps.value with
              | some spec2 =>
                rw [show procLines (line :: rest) mods
                    (some (.Git gname spec)) =
                    procLines rest mods (some (.Git gname spec2)) by
                  simp [procLines, hf, hg, ha, hap]] at hp
                exact ih _ _ _ hp hmods (by simp) n v hmem
              | none =>
                rw [show procLines (line :: rest) mods
                    (some (.Git gname spec)) =
                    some (mods ++ [.Git gname spec]) by
                  simp [procLines, hf, hg, ha, hap]] at hp
                simp only [Option.some.injEq] at hp
                subst hp
                rcases List.mem_append.mp hmem with h2 | h2
                · exact hmods n v h2
                · simp at h2
        | none =>
          rw [show procLines (line :: rest) mods cur =
              procLines rest mods cur by simp [procLines, hf, hg, ha]] at hp
          exact ih _ _ _ hp hmods hcur n v hmem

/-- Claim C5: every `Module::Forge` name emitted by `parse_puppetfile`
contains no `/` (the registry branch normalizes with
`name.replace("/", "-")`); normalization is idempotent; and it rewrites
`owner/name` to `owner-name`. -/
theorem c5_forge_name_normalization :
    (∀ content out, parse_puppetfile content = some out →
        ∀ n v, Module'.Forge n v ∈ out → '/' ∉ n) ∧
      (∀ s, normalizeName (normalizeName s) = normalizeName s) ∧
      normalizeName (chars "owner/name") = chars "owner-name" := by
  refine ⟨?_, ?_, by decide⟩
  · intro content out hp n v hmem
    exact procLines_forge_no_slash _ _ _ _ hp (by simp) (by simp) n v hmem
  · intro s
    induction s with
    | nil => rfl
    | cons c cs ih =>
      simp only [normalizeName, List.map_cons, List.map_map] at ih ⊢
      refine congrArg₂ List.cons ?_ ih
      by_cases h : c = '/' <;> simp [h]

/-- Witness for `c5_forge_name_normalization`: a manifest with a
slash-form registry name, whose emitted declaration is slash-free. -/
theorem c5_witness :
    parse_puppetfile (chars "mod \"a/b\", \"1.0.0\"") =
        some [.Forge (chars "a-b") ⟨1, 0, 0, [], []⟩] ∧
      '/' ∉ chars "a-b" :=
  ⟨by decide,
    c5_forge_name_normalization.1 (chars "mod \"a/b\", \"1.0.0\"")
      [.Forge (chars "a-b") ⟨1, 0, 0, [], []⟩] (by decide)
      (chars "a-b") ⟨1, 0, 0, [], []⟩ (by decide)⟩

/-! ## Claim C7 -/

/-- Claim C7: the registry-version state of a row with deprecation flag
`d`, registry latest `l` and `max_in_use` `m`: `d = true` gives
`Deprecated` regardless of the versions; otherwise `l > m` gives
`AheadOfUse`; otherwise `Nominal`. -/
theorem c7_classification (d : Bool) (l m : SemVer) :
    (d = true → classifyForge d l m = .Deprecated) ∧
      (d = false → sverLt m l = true → classifyForge d l m = .AheadOfUse) ∧
      (d = false → sverLt m l = false → classifyForge d l m = .Nominal) :=
  ⟨fun h => by simp [classifyForge, h],
   fun h1 h2 => by simp [classifyForge, h1, h2],
   fun h1 h2 => by simp [classifyForge, h1, h2]⟩

/-- Witness for `c7_classification` on all three states. -/
theorem c7_witness :
    classifyForge true ⟨1, 0, 0, [], []⟩ ⟨2, 0, 0, [], []⟩ = .Deprecated ∧
      classifyForge false ⟨2, 0, 0, [], []⟩ ⟨1, 0, 0, [], []⟩ = .AheadOfUse ∧
      classifyForge false ⟨1, 0, 0, [], []⟩ ⟨1, 0, 0, [], []⟩ = .Nominal :=
  ⟨(c7_classification true ⟨1, 0, 0, [], []⟩ ⟨2, 0, 0, [], []⟩).1 rfl,
   (c7_classification false ⟨2, 0, 0, [], []⟩ ⟨1, 0, 0, [], []⟩).2.1 rfl
     (by decide),
   (c7_classification false ⟨1, 0, 0, [], []⟩ ⟨1, 0, 0, [], []⟩).2.2 rfl
     (by decide)⟩

/-! ## Claim C10 -/

theorem u64Sub_eq (now : Nat) (h1 : 3600 ≤ now)
    (h2 : now < 18446744073709551616) : u64Sub now 3600 = now - 3600 := by
  unfold u64Sub
  rw [show now + 18446744073709551616 - 3600 =
    (now - 3600) + 18446744073709551616 by omega, Nat.add_mod_right]
  exact Nat.mod_eq_of_lt (by omega)

/-- Claim C10: a cached entry that is still fresh at `now` but whose
stored version string is not valid semver makes `get_version` panic
(`none`) instead of returning an error: the Ok branch re-parses the
cached string and unwraps. Snapshot loading performs no semver
validation, so such entries are exactly the ones a snapshot can inject. -/
theorem c10_fresh_invalid_entry_panics
    (cache : Cache) (name : List Char) (e : CacheEntry) (now : Nat)
    (tr : Transport)
    (hlook : lookupC cache name = some e)
    (hbad : parseSemVer e.version = none)
    (hnow1 : 3600 ≤ now) (hnow2 : now < 18446744073709551616)
    (hfresh : now - e.time_fetched < 3600) :
    get_version cache name now tr = none := by
  have hnf : ¬(e.time_fetched < u64Sub now 3600) := by
    rw [u64Sub_eq now hnow1 hnow2]; omega
  have hgd : get_data cache name now tr = (.ok cache, 0) := by
    simp [get_data, hlook, hnf]
  simp [get_version, hgd, hlook, hbad]

/-- Witness for `c10_fresh_invalid_entry_panics`: a fresh entry holding
the non-semver string `garbage`. -/
theorem c10_witness :
    lookupC [(chars "a-b", ⟨chars "garbage", false, 1000⟩)] (chars "a-b") =
        some ⟨chars "garbage", false, 1000⟩ ∧
      parseSemVer (chars "garbage") = none ∧
      4000 - 1000 < 3600 ∧
      get_version [(chars "a-b", ⟨chars "garbage", false, 1000⟩)]
        (chars "a-b") 4000 (fun _ => .badJson) = none :=
  ⟨by decide, by decide, by decide,
    c10_fresh_invalid_entry_panics
      [(chars "a-b", ⟨chars "garbage", false, 1000⟩)] (chars "a-b")
      ⟨chars "garbage", false, 1000⟩ 4000 (fun _ => .badJson)
      (by decide) (by decide) (by decide) (by decide) (by decide)⟩

/-! ## Claim C2 -/

theorem updateC_keys (cache : Cache) (name : List Char) (e2 : CacheEntry) :
    (updateC cache name e2).map Prod.fst = cache.map Prod.fst := by
  induction cache with
  | nil => rfl
  | cons x xs ih =>
    by_cases h : x.1 = name <;> simp [updateC, h, ih]

theorem lookupC_updateC (cache : Cache) (name : List Char)
    (e e2 : CacheEntry) (hl : lookupC cache name = some e) :
    lookupC (updateC cache name e2) name = some e2 := by
  induction cache with
  | nil => simp [lookupC] at hl
  | cons x xs ih =>
    by_cases h : x.1 = name
    · simp [updateC, lookupC, h]
    · simp only [updateC, lookupC, if_neg h] at hl ⊢
      exact ih hl

/-- Claim C2 counterexample: a lookup at exactly `now - time_fetched =
3600` (the TTL boundary, where the claim requires exactly one transport
invocation and a timestamp update) performs zero transport invocations
and leaves the entry unchanged: the staleness test in src/forge.rs is
the strict `time_fetched < now - 60 * 60`. -/
theorem c2_counterexample :
    get_data [(chars "a-b", ⟨chars "1.0.0", false, 1700000000⟩)]
        (chars "a-b") 1700003600 (fun _ => .ok (chars "2.0.0") none) =
      (.ok [(chars "a-b", ⟨chars "1.0.0", false, 1700000000⟩)], 0) := by
  rfl

/-- Claim C2 (amended): for a cached entry, a lookup with
`now - time_fetched ≤ 3600` (note: `≤`, not `<`) does not invoke the
transport and returns the cache unchanged; a lookup with
`now - time_fetched > 3600` invokes it exactly once and, on success,
overwrites version, deprecation flag and `time_fetched := now` in place,
preserving the map keys (a failed fetch also counts one invocation and
propagates the error). -/
theorem c2_amended
    (cache : Cache) (name : List Char) (e : CacheEntry) (now : Nat)
    (tr : Transport)
    (hlook : lookupC cache name = some e)
    (hnow1 : 3600 ≤ now) (hnow2 : now < 18446744073709551616) :
    (now - e.time_fetched ≤ 3600 →
      get_data cache name now tr = (.ok cache, 0)) ∧
    (3600 < now - e.time_fetched →
      (∀ v dep, fetch_data tr name = .ok (v, dep) →
        get_data cache name now tr =
          (.ok (updateC cache name ⟨svToString v, dep.isSome, now⟩), 1) ∧
        lookupC (updateC cache name ⟨svToString v, dep.isSome, now⟩) name =
          some ⟨svToString v, dep.isSome, now⟩ ∧
        (updateC cache name ⟨svToString v, dep.isSome, now⟩).map Prod.fst =
          cache.map Prod.fst) ∧
      (∀ msg, fetch_data tr name = .error msg →
        get_data cache name now tr = (.error msg, 1))) := by
  constructor
  · intro hfresh
    have hnf : ¬(e.time_fetched < u64Sub now 3600) := by
      rw [u64Sub_eq now hnow1 hnow2]; omega
    simp [get_data, hlook, hnf]
  · intro hstale
    have hst : e.time_fetched < u64Sub now 3600 := by
      rw [u64Sub_eq now hnow1 hnow2]; omega
    constructor
    · intro v dep hfd
      refine ⟨by simp [get_data, hlook, hst, hfd], ?_, ?_⟩
      · exact lookupC_updateC cache name e _ hlook
      · exact updateC_keys cache name _
    · intro msg hfd
      simp [get_data, hlook, hst, hfd]

/-- Witness for `c2_amended`: a stale entry refreshed in place with the
fetched data, and the key set preserved. -/
theorem c2_witness :
    lookupC [(chars "a-b", ⟨chars "1.0.0", false, 0⟩)] (chars "a-b") =
        some ⟨chars "1.0.0", false, 0⟩ ∧
      fetch_data (fun _ => .ok (chars "2.0.0") (some 5)) (chars "a-b") =
        .ok (⟨2, 0, 0, [], []⟩, some 5) ∧
      get_data [(chars "a-b", ⟨chars "1.0.0", false, 0⟩)] (chars "a-b")
          10000 (fun _ => .ok (chars "2.0.0") (some 5)) =
        (.ok [(chars "a-b", ⟨chars "2.0.0", true, 10000⟩)], 1) := by
  refine ⟨by decide, by rfl, ?_⟩
  have h := ((c2_amended [(chars "a-b", ⟨chars "1.0.0", false, 0⟩)]
      (chars "a-b") ⟨chars "1.0.0", false, 0⟩ 10000
      (fun _ => .ok (chars "2.0.0") (some 5))
      (by decide) (by decide) (by decide)).2 (by decide)).1
      ⟨2, 0, 0, [], []⟩ (some 5) (by rfl)
  exact h.1.trans (by rfl)

/-! ## Claim C4 -/

/-- Claim C4 counterexample: two module names, transport failing for the
first only — the reconciliation loop panics (`none`): the failure is not
surfaced per-module and the second name is never reconciled, because
src/main.rs unwraps the lookup results. -/
theorem c4_counterexample :
    buildModuleRows [chars "a-b", chars "c-d"] [] [] 4000
        (fun n => if n = chars "a-b" then .netErr (chars "boom")
          else .ok (chars "1.0.0") none) = none := by
  rfl

/-- Claim C4 (amended): a transport failure (network error, malformed
body, or a fetched version that is not semver) on a missing-entry lookup
is indeed propagated as a recoverable `Result` error by `get_version`
and `is_deprecated`; but their caller in src/main.rs unwraps, so the
whole reconciliation run panics at the first failing module and no
remaining module is processed. -/
theorem c4_amended
    (cache : Cache) (name : List Char) (now : Nat) (tr : Transport)
    (msg : List Char)
    (hlook : lookupC cache name = none)
    (hfd : fetch_data tr name = .error msg) :
    get_version cache name now tr = some (.error msg) ∧
      is_deprecated cache name now tr = some (.error msg) ∧
      ∀ rest branches,
        buildModuleRows (name :: rest) branches cache now tr = none := by
  have hgd : get_data cache name now tr = (.error msg, 1) := by
    simp [get_data, hlook, hfd]
  refine ⟨by simp [get_version, hgd], by simp [is_deprecated, hgd], ?_⟩
  intro rest branches
  simp [buildModuleRows, get_version, hgd]

/-- Witness for `c4_amended`: the failing transport of
`c4_counterexample`. -/
theorem c4_witness :
    lookupC [] (chars "a-b") = none ∧
      fetch_data (fun n => if n = chars "a-b" then .netErr (chars "boom")
          else .ok (chars "1.0.0") none) (chars "a-b") =
        .error (chars "Failure in communication with forge: boom") ∧
      buildModuleRows [chars "a-b", chars "c-d"] [] [] 4000
        (fun n => if n = chars "a-b" then .netErr (chars "boom")
          else .ok (chars "1.0.0") none) = none :=
  ⟨by decide, by rfl,
    (c4_amended [] (chars "a-b") 4000
      (fun n => if n = chars "a-b" then .netErr (chars "boom")
        else .ok (chars "1.0.0") none)
      (chars "Failure in communication with forge: boom")
      (by decide) (by rfl)).2.2 [chars "c-d"] []⟩

/-! ## Claim C6 -/

theorem sverLt_iff {a b : SemVer} : sverLt a b = true ↔ sverCmp a b = .lt := by
  simp [sverLt]

theorem sverLe_iff {a b : SemVer} : sverLe a b = true ↔ sverCmp a b ≠ .gt := by
  simp [sverLe]

theorem sverLe_refl (a : SemVer) : sverLe a a = true := by
  rw [sverLe_iff, sverCmp_law.refl a]
  decide

theorem sverLe_of_lt {a b : SemVer} (h : sverCmp a b = .lt) :
    sverLe a b = true := by
  rw [sverLe_iff, h]
  decide

theorem sverLe_trans {a b c : SemVer} (h1 : sverLe a b = true)
    (h2 : sverLe b c = true) : sverLe a c = true := by
  rw [sverLe_iff] at h1 h2 ⊢
  exact sverCmp_law.le_trans h1 h2

theorem sverLe_of_not_lt {a b : SemVer} (h : sverLt a b = false) :
    sverLe b a = true := by
  rw [sverLe_iff]
  refine sverCmp_law.not_gt_of_not_lt ?_
  intro hc
  rw [sverLt_iff.mpr hc] at h
  exact absurd h (by decide)

theorem computeRow_inv (name : List Char) :
    ∀ (branches : List BranchMeta) (acc : SemVer × List (List Char × SemVer)),
      acc.1 ∈ zeroVer :: acc.2.map Prod.snd →
      sverLe zeroVer acc.1 = true →
      (∀ v ∈ acc.2.map Prod.snd, sverLe v acc.1 = true) →
      (List.foldl
          (fun acc br =>
            match branchFirstForge name br.modules with
            | some v => (svMax v acc.1, acc.2 ++ [(br.name, v)])
            | none => acc)
          acc branches).1 ∈
        zeroVer :: (List.foldl
          (fun acc br =>
            match branchFirstForge name br.modules with
            | some v => (svMax v acc.1, acc.2 ++ [(br.name, v)])
            | none => acc)
          acc branches).2.map Prod.snd ∧
      sverLe zeroVer (List.foldl
          (fun acc br =>
            match branchFirstForge name br.modules with
            | some v => (svMax v acc.1, acc.2 ++ [(br.name, v)])
            | none => acc)
          acc branches).1 = true ∧
      (∀ v ∈ (List.foldl
          (fun acc br =>
            match branchFirstForge name br.modules with
            | some v => (svMax v acc.1, acc.2 ++ [(br.name, v)])
            | none => acc)
          acc branches).2.map Prod.snd,
        sverLe v (List.foldl
          (fun acc br =>
            match branchFirstForge name br.modules with
            | some v => (svMax v acc.1, acc.2 ++ [(br.name, v)])
            | none => acc)
          acc branches).1 = true) ∧
      (List.foldl
          (fun acc br =>
            match branchFirstForge name br.modules with
            | some v => (svMax v acc.1, acc.2 ++ [(br.name, v)])
            | none => acc)
          acc branches).2 =
        acc.2 ++ branches.filterMap
          (fun br => (branchFirstForge name br.modules).map
            (fun v => (br.name, v))) := by
  intro branches
  induction branches with
  | nil =>
    intro acc h1 h0 h2
    exact ⟨h1, h0, h2, by simp⟩
  | cons br rest ih =>
    intro acc h1 h0 h2
    cases hbf : branchFirstForge name br.modules with
    | none =>
      simp only [List.foldl_cons, hbf, List.filterMap_cons]
      obtain ⟨g1, g0, g2, g3⟩ := ih acc h1 h0 h2
      exact ⟨g1, g0, g2, g3⟩
    | some v =>
      simp only [List.foldl_cons, hbf, List.filterMap_cons]
      have h1' : svMax v acc.1 ∈
          zeroVer :: (acc.2 ++ [(br.name, v)]).map Prod.snd := by
        by_cases hlt : sverLt acc.1 v = true
        · rw [show svMax v acc.1 = v by simp [svMax, hlt]]
          simp only [List.map_append, List.map_cons, List.map_nil]
          exact List.mem_cons.mpr (Or.inr (List.mem_append.mpr
            (Or.inr (List.mem_singleton.mpr rfl))))
        · rcases List.mem_cons.mp h1 with h | h
          · rw [show svMax v acc.1 = acc.1 by simp [svMax, hlt], h]
            exact List.mem_cons_self _ _
          · rw [show svMax v acc.1 = acc.1 by simp [svMax, hlt]]
            simp only [List.map_append]
            exact List.mem_cons.mpr (Or.inr (List.mem_append.mpr (Or.inl h)))
      have h0' : sverLe zeroVer (svMax v acc.1) = true := by
        by_cases hlt : sverLt acc.1 v = true
        · rw [show svMax v acc.1 = v by simp [svMax, hlt]]
          exact sverLe_trans h0 (sverLe_of_lt (sverLt_iff.mp hlt))
        · rw [show svMax v acc.1 = acc.1 by simp [svMax, hlt]]
          exact h0
      have h2' : ∀ w ∈ (acc.2 ++ [(br.name, v)]).map Prod.snd,
          sverLe w (svMax v acc.1) = true := by
        intro w hw
        simp only [List.map_append, List.mem_append, List.map_cons,
          List.map_nil, List.mem_singleton] at hw
        by_cases hlt : sverLt acc.1 v = true
        · rw [show svMax v acc.1 = v by simp [svMax, hlt]]
          rcases hw with hw | hw
          · exact sverLe_trans (h2 w hw) (sverLe_of_lt (sverLt_iff.mp hlt))
          · rw [hw]; exact sverLe_refl v
        · rw [show svMax v acc.1 = acc.1 by simp [svMax, hlt]]
          rcases hw with hw | hw
          · exact h2 w hw
          · rw [hw]; exact sverLe_of_not_lt (by simpa using hlt)
      obtain ⟨g1, g0, g2, g3⟩ :=
        ih (svMax v acc.1, acc.2 ++ [(br.name, v)]) h1' h0' h2'
      refine ⟨g1, g0, g2, ?_⟩
      rw [g3]
      simp

/-- Claim C6 counterexample: one branch declares the module at
`0.0.0-alpha`, the single `Some` value of the row's mapping; the computed
`max_in_use` is `0.0.0`, not the semver maximum `0.0.0-alpha` of the
`Some` values (pre-releases have lower precedence than the zero version
the accumulator starts from, so the clamp at `0.0.0` shows). -/
theorem c6_counterexample :
    computeRow (chars "a-b")
        [⟨chars "b1",
          [.Forge (chars "a-b") ⟨0, 0, 0, [.str (chars "alpha")], []⟩]⟩] =
      (zeroVer,
        [(chars "b1", ⟨0, 0, 0, [.str (chars "alpha")], []⟩)]) ∧
      zeroVer ≠ (⟨0, 0, 0, [.str (chars "alpha")], []⟩ : SemVer) := by
  decide

/-- Claim C6 (amended): the row's branch-version mapping consists of the
first matching declaration per branch, and `max_in_use` is the semver
maximum of the zero version `0.0.0` together with all `Some` values: it
is a member of that set, it is at least `0.0.0`, and it bounds every
`Some` value from above. (It equals the maximum of the `Some` values
alone only when that maximum is itself at least `0.0.0`; a lone
pre-release below `0.0.0` is clamped up to `0.0.0`, and with no
declaring branch the result is `0.0.0`.) -/
theorem c6_amended (name : List Char) (branches : List BranchMeta) :
    (computeRow name branches).2 = branches.filterMap
        (fun br => (branchFirstForge name br.modules).map
          (fun v => (br.name, v))) ∧
      (computeRow name branches).1 ∈
        zeroVer :: (computeRow name branches).2.map Prod.snd ∧
      sverLe zeroVer (computeRow name branches).1 = true ∧
      ∀ v ∈ (computeRow name branches).2.map Prod.snd,
        sverLe v (computeRow name branches).1 = true := by
  obtain ⟨g1, g0, g2, g3⟩ :=
    computeRow_inv name branches (zeroVer, []) (by simp)
      (sverLe_refl zeroVer) (by simp)
  exact ⟨by simpa using g3, g1, g0, g2⟩

/-- Witness for `c6_amended`: a single declaring branch at `1.2.3`;
`max_in_use` is at least the zero version and bounds that declared value
from above. -/
theorem c6_witness :
    (⟨1, 2, 3, [], []⟩ : SemVer) ∈
        (computeRow (chars "a-b")
          [⟨chars "b1", [.Forge (chars "a-b") ⟨1, 2, 3, [], []⟩]⟩]).2.map
          Prod.snd ∧
      sverLe zeroVer
        (computeRow (chars "a-b")
          [⟨chars "b1", [.Forge (chars "a-b") ⟨1, 2, 3, [], []⟩]⟩]).1 = true ∧
      sverLe ⟨1, 2, 3, [], []⟩
        (computeRow (chars "a-b")
          [⟨chars "b1", [.Forge (chars "a-b") ⟨1, 2, 3, [], []⟩]⟩]).1 = true :=
  ⟨by decide,
    (c6_amended (chars "a-b")
      [⟨chars "b1", [.Forge (chars "a-b") ⟨1, 2, 3, [], []⟩]⟩]).2.2.1,
    (c6_amended (chars "a-b")
      [⟨chars "b1", [.Forge (chars "a-b") ⟨1, 2, 3, [], []⟩]⟩]).2.2.2
      ⟨1, 2, 3, [], []⟩ (by decide)⟩
